import Mathlib

/-!
Verification development for the starfield generator addon
(src/starfield_generator/__init__.py).

The numeric core is embedded over the rationals: Python floats are modelled
as exact rationals, and the pseudo-random source `random` is modelled as an
abstract infinite stream of draws `s : Nat -> Rat` (the value returned by the
n-th call to `random()`, which lies in [0,1)).  `random.uniform(a, b)` is
`a + (b - a) * random()`, consuming exactly one draw.  `random.seed(seed)`
determines the whole stream, modelled by a function from seeds to streams.

The comparison `point.length <= 1.0` of mathutils vectors is translated as
`normSq point <= 1`, which is equivalent for the Euclidean norm since both
sides are nonnegative; the Euclidean length itself is defined over the reals
for the containment statements.
-/

namespace Starfield

/-- A 3D vector with rational coordinates, modelling `mathutils.Vector`. -/
structure Vec3 where
  x : ℚ
  y : ℚ
  z : ℚ
deriving DecidableEq

/-- Squared Euclidean norm of a vector. -/
def Vec3.normSq (v : Vec3) : ℚ := v.x * v.x + v.y * v.y + v.z * v.z

/-- Componentwise scaling, modelling `point * radius`. -/
def Vec3.smul (c : ℚ) (v : Vec3) : Vec3 := ⟨c * v.x, c * v.y, c * v.z⟩

/-- Euclidean length (`Vector.length`), over the reals. -/
noncomputable def Vec3.length (v : Vec3) : ℝ := Real.sqrt ((v.normSq : ℚ) : ℝ)

/-- Python `random.uniform(a, b) = a + (b - a) * random()`, where `u` is the
draw returned by `random()`. -/
def uniform (a b u : ℚ) : ℚ := a + (b - a) * u

/-- The stream of draws of the seeded generator: `s n` is the value returned
by the (n+1)-st call to `random()` after seeding. -/
def RandStream := Nat → ℚ

/-- A faithful stream: every `random()` draw lies in [0, 1). -/
def UnitStream (s : RandStream) : Prop := ∀ n, 0 ≤ s n ∧ s n < 1

/-- The candidate vector built from the three consecutive `uniform(-1, 1)`
draws starting at stream position `n` (the loop body of
`random_point_in_sphere`). -/
def candidateAt (s : RandStream) (n : Nat) : Vec3 :=
  ⟨uniform (-1) 1 (s n), uniform (-1) 1 (s (n + 1)), uniform (-1) 1 (s (n + 2))⟩

/-- The acceptance test `point.length <= 1.0` for the candidate drawn at
position `n`, stated on the squared norm. -/
def accepted (s : RandStream) (n : Nat) : Prop := (candidateAt s n).normSq ≤ 1

instance (s : RandStream) (n : Nat) : Decidable (accepted s n) :=
  inferInstanceAs (Decidable (_ ≤ _))

instance (s : RandStream) (n : Nat) : DecidablePred (fun k => accepted s (n + 3 * k)) :=
  fun _ => inferInstanceAs (Decidable (_ ≤ _))

/-- Literal translation of the `while True` loop of `random_point_in_sphere`,
with explicit fuel bounding the number of iterations we are willing to run:
draw a candidate at the cursor `n` (consuming three draws), return it scaled
by `radius` if accepted, otherwise retry.  On success it returns the point
together with the stream cursor after the accepted candidate's draws. -/
def rpisLoop (radius : ℚ) (s : RandStream) : Nat → Nat → Option (Vec3 × Nat)
  | _, 0 => none
  | n, fuel + 1 =>
    if accepted s n then some (Vec3.smul radius (candidateAt s n), n + 3)
    else rpisLoop radius s (n + 3) fuel

/-- `random_point_in_sphere(radius)` run from stream cursor `n`, total under
the hypothesis that some candidate starting at `n` is eventually accepted:
it returns the first accepted candidate scaled by `radius`, together with the
cursor after that candidate's three draws. -/
def random_point_in_sphere (radius : ℚ) (s : RandStream) (n : Nat)
    (h : ∃ k, accepted s (n + 3 * k)) : Vec3 × Nat :=
  (Vec3.smul radius (candidateAt s (n + 3 * Nat.find h)), n + 3 * Nat.find h + 3)

/-- A stream on which every run of the rejection loop terminates: from every
cursor position some candidate is eventually accepted. -/
def GoodStream (s : RandStream) : Prop := ∀ n, ∃ k, accepted s (n + 3 * k)

/-- One placement produced for one star: its location and uniform scale. -/
structure StarPlacement where
  position : Vec3
  scale : ℚ
deriving DecidableEq

/-- The `for i in range(settings.star_count)` loop of `generate_starfield`,
parametrised by the remaining count and the stream cursor: each iteration
draws the star's position via `random_point_in_sphere` and then its scale
via `random.uniform(star_size_min, star_size_max)` (one further draw). -/
def buildLoop (radius smin smax : ℚ) (s : RandStream) (hs : GoodStream s) :
    Nat → Nat → List StarPlacement
  | 0, _ => []
  | count + 1, n =>
    { position := (random_point_in_sphere radius s n (hs n)).1,
      scale := uniform smin smax (s ((random_point_in_sphere radius s n (hs n)).2)) } ::
      buildLoop radius smin smax s hs count ((random_point_in_sphere radius s n (hs n)).2 + 1)

/-- The `StarfieldSettings` dataclass.  `star_count` and `random_seed` are
Python ints, the float fields are rationals. -/
structure StarfieldSettings where
  star_count : ℤ
  field_radius : ℚ
  star_size_min : ℚ
  star_size_max : ℚ
  base_brightness : ℚ
  brightness_variation : ℚ
  collection_name : String
  clear_existing : Bool
  random_seed : ℤ
deriving DecidableEq

/-- The sequence of placements produced by `generate_starfield`:
`random.seed(settings.random_seed)` selects the stream (via the abstract
seed-to-stream map `rngOf`), and the loop runs `star_count` times from
cursor 0 (`range` of a negative int is empty, hence `Int.toNat`). -/
def build_field (settings : StarfieldSettings) (rngOf : ℤ → RandStream)
    (hs : GoodStream (rngOf settings.random_seed)) : List StarPlacement :=
  buildLoop settings.field_radius settings.star_size_min settings.star_size_max
    (rngOf settings.random_seed) hs settings.star_count.toNat 0

/-- An object in the target collection: either an object already present
before the run, or a star object created by the loop (named `Star_i`,
placed at `position` with uniform `scale`). -/
inductive SceneObject where
  | existing (id : Nat)
  | star (index : Nat) (position : Vec3) (scale : ℚ)
deriving DecidableEq

/-- `clear_collection`: removes every object of the collection. -/
def clear_collection (objs : List SceneObject) : List SceneObject :=
  match objs with
  | [] => []
  | _ :: rest => clear_collection rest

/-- The star objects created and linked by the loop, one per placement,
indexed from `firstIndex`. -/
def starObjects (placements : List StarPlacement) (firstIndex : Nat) : List SceneObject :=
  match placements with
  | [] => []
  | p :: rest => SceneObject.star firstIndex p.position p.scale :: starObjects rest (firstIndex + 1)

/-- Effect of `generate_starfield` on the contents of the target collection,
whose prior contents are `pre`: optionally clear, then link one new star
object per loop iteration. -/
def generate_starfield (settings : StarfieldSettings) (pre : List SceneObject)
    (rngOf : ℤ → RandStream) (hs : GoodStream (rngOf settings.random_seed)) :
    List SceneObject :=
  (if settings.clear_existing then clear_collection pre else pre) ++
    starObjects (build_field settings rngOf hs) 0

/-- The size clamps performed by `STARFIELD_OT_generate.execute` before the
settings are built: `star_size_min = max(0.0001, props.star_size_min)` and
`star_size_max = max(star_size_min, props.star_size_max)` (the float literal
0.0001 is modelled as the exact rational 1/10000).  Returns the effective
(min, max) pair passed on to `generate_starfield`. -/
def execute_clamp (props_min props_max : ℚ) : ℚ × ℚ :=
  (max (1 / 10000) props_min, max (max (1 / 10000) props_min) props_max)

/-- The constant stream whose every draw is 1/2; `uniform(-1, 1)` then always
returns 0, so every candidate is the origin and is accepted at once. -/
def halfStream : RandStream := fun _ => 1 / 2

theorem halfStream_unit : UnitStream halfStream := by
  intro n
  constructor <;> norm_num [halfStream]

theorem halfStream_accepted (n : Nat) : accepted halfStream n := by
  simp [accepted, candidateAt, halfStream, uniform, Vec3.normSq]
  norm_num

theorem halfStream_good : GoodStream halfStream :=
  fun n => ⟨0, halfStream_accepted (n + 3 * 0)⟩

/-- A seed-to-stream map used for concrete instantiations. -/
def halfRng : ℤ → RandStream := fun _ => halfStream

/-- A concrete configuration for instantiations: 3 stars, radius 50,
sizes [1/50, 3/20], seed 42. -/
def sampleSettings : StarfieldSettings :=
  ⟨3, 50, 1 / 50, 3 / 20, 3, 8, "Starfield", true, 42⟩

/-- A configuration agreeing with `sampleSettings` on the seed, the count,
the radius and the size range, but differing in the fields the build does
not draw from (brightness, collection name, clearing). -/
def settingsAlt : StarfieldSettings :=
  ⟨3, 50, 1 / 50, 3 / 20, 5, 2, "Other", false, 42⟩

/-- The stream cursor just past the draws consumed by one
`random_point_in_sphere` call started at cursor `n`: the rejection loop
consumes three draws per candidate, up to and including the first accepted
one.  This equals `(random_point_in_sphere radius s n h).2` for any radius. -/
def sphereDrawEnd (s : RandStream) (n : Nat) (h : ∃ k, accepted s (n + 3 * k)) : Nat :=
  n + 3 * Nat.find h + 3

/-- The stream cursor at the start of iteration `i` of the build loop that
began at cursor `n`: each iteration consumes the position draws (three per
candidate) followed by one scale draw. -/
def cursorAt (s : RandStream) (hs : GoodStream s) : Nat → Nat → Nat
  | n, 0 => n
  | n, i + 1 => cursorAt s hs (sphereDrawEnd s n (hs n) + 1) i

theorem buildLoop_length (radius smin smax : ℚ) (s : RandStream) (hs : GoodStream s) :
    ∀ count n, (buildLoop radius smin smax s hs count n).length = count := by
  intro count
  induction count with
  | zero => intro n; rfl
  | succ c ih => intro n; simp [buildLoop, ih]

theorem normSq_nonneg (v : Vec3) : 0 ≤ v.normSq :=
  add_nonneg (add_nonneg (mul_self_nonneg _) (mul_self_nonneg _)) (mul_self_nonneg _)

theorem normSq_smul (c : ℚ) (v : Vec3) : (Vec3.smul c v).normSq = c ^ 2 * v.normSq := by
  simp only [Vec3.smul, Vec3.normSq]
  ring

theorem length_le_of_normSq_le (v : Vec3) (r : ℚ) (hr : 0 ≤ r) (h : v.normSq ≤ r ^ 2) :
    v.length ≤ (r : ℝ) := by
  have hc : ((v.normSq : ℚ) : ℝ) ≤ ((r : ℚ) : ℝ) ^ 2 := by exact_mod_cast h
  calc Real.sqrt ((v.normSq : ℚ) : ℝ) ≤ Real.sqrt (((r : ℚ) : ℝ) ^ 2) := Real.sqrt_le_sqrt hc
    _ = ((r : ℚ) : ℝ) := Real.sqrt_sq (by exact_mod_cast hr)

theorem uniform_mem (a b u : ℚ) (hab : a ≤ b) (h0 : 0 ≤ u) (h1 : u ≤ 1) :
    a ≤ uniform a b u ∧ uniform a b u ≤ b := by
  constructor
  · have : 0 ≤ (b - a) * u := mul_nonneg (by linarith) h0
    simp only [uniform]
    linarith
  · have : (b - a) * u ≤ (b - a) * 1 := by
      apply mul_le_mul_of_nonneg_left h1
      linarith
    simp only [uniform]
    linarith

/-- C1: for every configuration with `star_count >= 0`, the build loop of
`generate_starfield` produces exactly `star_count` placements:
`len(build_field(config)) == config.star_count`. -/
theorem build_field_count (settings : StarfieldSettings) (rngOf : ℤ → RandStream)
    (hs : GoodStream (rngOf settings.random_seed)) (h0 : 0 ≤ settings.star_count) :
    ((build_field settings rngOf hs).length : ℤ) = settings.star_count := by
  simp [build_field, buildLoop_length, Int.toNat_of_nonneg h0]

theorem build_field_count_witness :
    0 ≤ sampleSettings.star_count ∧
      ((build_field sampleSettings halfRng halfStream_good).length : ℤ) =
        sampleSettings.star_count :=
  ⟨by decide, build_field_count sampleSettings halfRng halfStream_good (by decide)⟩

/-- C9: `STARFIELD_OT_generate.execute` clamps the supplied minimum size up
to at least 0.0001 before the max-vs-min clamp, so the effective range
always satisfies `0.0001 <= size_min <= size_max`. -/
theorem execute_clamp_floor (pmin pmax : ℚ) :
    1 / 10000 ≤ (execute_clamp pmin pmax).1 ∧
      (execute_clamp pmin pmax).1 ≤ (execute_clamp pmin pmax).2 ∧
      (execute_clamp pmin pmax).1 = max (1 / 10000) pmin :=
  ⟨le_max_left _ _, le_max_left _ _, rfl⟩

/-- C5: when the supplied `size_min` exceeds the supplied `size_max`, the
configuration is silently corrected (the clamp is a total function, there is
no error path) by raising the upper bound to equal the effective lower bound
and never shrinking the lower bound, and then every sampled scale equals
that bound; in particular `execute_clamp 0.5 0.1 = (0.5, 0.5)`. -/
theorem execute_clamp_policy (pmin pmax : ℚ) (h : pmax < pmin) :
    (execute_clamp pmin pmax).2 = (execute_clamp pmin pmax).1 ∧
      pmin ≤ (execute_clamp pmin pmax).1 ∧
      (∀ u, uniform (execute_clamp pmin pmax).1 (execute_clamp pmin pmax).2 u =
        (execute_clamp pmin pmax).1) ∧
      execute_clamp (1 / 2) (1 / 10) = (1 / 2, 1 / 2) := by
  have hle : pmax ≤ max (1 / 10000) pmin := le_trans (le_of_lt h) (le_max_right _ _)
  have h2 : (execute_clamp pmin pmax).2 = (execute_clamp pmin pmax).1 := by
    simp only [execute_clamp]
    exact max_eq_left hle
  refine ⟨h2, le_max_right _ _, ?_, by norm_num [execute_clamp, max_def]⟩
  intro u
  rw [h2]
  simp [uniform]

theorem execute_clamp_policy_witness :
    (1 : ℚ) / 10 < 1 / 2 ∧
      ((execute_clamp (1 / 2) (1 / 10)).2 = (execute_clamp (1 / 2) (1 / 10)).1 ∧
        (1 : ℚ) / 2 ≤ (execute_clamp (1 / 2) (1 / 10)).1 ∧
        (∀ u, uniform (execute_clamp (1 / 2) (1 / 10)).1 (execute_clamp (1 / 2) (1 / 10)).2 u =
          (execute_clamp (1 / 2) (1 / 10)).1) ∧
        execute_clamp (1 / 2) (1 / 10) = (1 / 2, 1 / 2)) :=
  ⟨by norm_num, execute_clamp_policy (1 / 2) (1 / 10) (by norm_num)⟩

theorem rpis_normSq_le (radius : ℚ) (s : RandStream) (n : Nat)
    (h : ∃ k, accepted s (n + 3 * k)) (_hr : 0 ≤ radius) :
    (random_point_in_sphere radius s n h).1.normSq ≤ radius ^ 2 := by
  have hacc : (candidateAt s (n + 3 * Nat.find h)).normSq ≤ 1 := Nat.find_spec h
  simp only [random_point_in_sphere, normSq_smul]
  calc radius ^ 2 * (candidateAt s (n + 3 * Nat.find h)).normSq ≤ radius ^ 2 * 1 :=
        mul_le_mul_of_nonneg_left hacc (sq_nonneg radius)
    _ = radius ^ 2 := mul_one _

theorem buildLoop_position_normSq (radius smin smax : ℚ) (s : RandStream)
    (hs : GoodStream s) (hr : 0 ≤ radius) :
    ∀ count n p, p ∈ buildLoop radius smin smax s hs count n →
      p.position.normSq ≤ radius ^ 2 := by
  intro count
  induction count with
  | zero => intro n p hp; simp [buildLoop] at hp
  | succ c ih =>
      intro n p hp
      simp only [buildLoop, List.mem_cons] at hp
      rcases hp with rfl | hp
      · exact rpis_normSq_le radius s n (hs n) hr
      · exact ih _ p hp

/-- C3: for every radius > 0, every point returned by
`random_point_in_sphere` has Euclidean norm at most `radius`; hence every
placement of the build satisfies `|position| <= field_radius`. -/
theorem sphere_containment (radius : ℚ) (s : RandStream) (n : Nat)
    (h : ∃ k, accepted s (n + 3 * k)) (hr : 0 < radius)
    (settings : StarfieldSettings) (rngOf : ℤ → RandStream)
    (hs : GoodStream (rngOf settings.random_seed)) (hrad : 0 < settings.field_radius) :
    (random_point_in_sphere radius s n h).1.length ≤ (radius : ℝ) ∧
      ∀ p ∈ build_field settings rngOf hs,
        p.position.length ≤ ((settings.field_radius : ℚ) : ℝ) := by
  constructor
  · exact length_le_of_normSq_le _ radius (le_of_lt hr)
      (rpis_normSq_le radius s n h (le_of_lt hr))
  · intro p hp
    exact length_le_of_normSq_le _ settings.field_radius (le_of_lt hrad)
      (buildLoop_position_normSq settings.field_radius settings.star_size_min
        settings.star_size_max (rngOf settings.random_seed) hs (le_of_lt hrad)
        settings.star_count.toNat 0 p hp)

theorem sphere_containment_witness :
    ((∃ k, accepted halfStream (0 + 3 * k)) ∧ (0 : ℚ) < 2 ∧
        (0 : ℚ) < sampleSettings.field_radius) ∧
      (random_point_in_sphere 2 halfStream 0 ⟨0, halfStream_accepted _⟩).1.length ≤ ((2 : ℚ) : ℝ) ∧
      ∀ p ∈ build_field sampleSettings halfRng halfStream_good,
        p.position.length ≤ ((sampleSettings.field_radius : ℚ) : ℝ) :=
  ⟨⟨⟨0, halfStream_accepted _⟩, by norm_num, by norm_num [sampleSettings]⟩,
    sphere_containment 2 halfStream 0 ⟨0, halfStream_accepted _⟩ (by norm_num)
      sampleSettings halfRng halfStream_good (by norm_num [sampleSettings])⟩

theorem buildLoop_scale_mem (radius smin smax : ℚ) (s : RandStream) (hs : GoodStream s)
    (hu : UnitStream s) (hle : smin ≤ smax) :
    ∀ count n p, p ∈ buildLoop radius smin smax s hs count n →
      smin ≤ p.scale ∧ p.scale ≤ smax := by
  intro count
  induction count with
  | zero => intro n p hp; simp [buildLoop] at hp
  | succ c ih =>
      intro n p hp
      simp only [buildLoop, List.mem_cons] at hp
      rcases hp with rfl | hp
      · exact uniform_mem smin smax _ hle (hu _).1 (le_of_lt (hu _).2)
      · exact ih _ p hp

/-- C6: after the configuration-time clamp (`size_min <= size_max`), every
scale produced by the per-star `random.uniform(size_min, size_max)` draw lies
in the closed interval `[size_min, size_max]`, for every star of every
build (the draws of a faithful stream lie in [0, 1)). -/
theorem size_bounds (settings : StarfieldSettings) (rngOf : ℤ → RandStream)
    (hs : GoodStream (rngOf settings.random_seed))
    (hu : UnitStream (rngOf settings.random_seed))
    (hle : settings.star_size_min ≤ settings.star_size_max) :
    ∀ p ∈ build_field settings rngOf hs,
      settings.star_size_min ≤ p.scale ∧ p.scale ≤ settings.star_size_max := by
  intro p hp
  exact buildLoop_scale_mem settings.field_radius settings.star_size_min
    settings.star_size_max (rngOf settings.random_seed) hs hu hle
    settings.star_count.toNat 0 p hp

theorem size_bounds_witness :
    (UnitStream (halfRng sampleSettings.random_seed) ∧
        sampleSettings.star_size_min ≤ sampleSettings.star_size_max) ∧
      ∀ p ∈ build_field sampleSettings halfRng halfStream_good,
        sampleSettings.star_size_min ≤ p.scale ∧ p.scale ≤ sampleSettings.star_size_max :=
  ⟨⟨halfStream_unit, by norm_num [sampleSettings]⟩,
    size_bounds sampleSettings halfRng halfStream_good halfStream_unit
      (by norm_num [sampleSettings])⟩

theorem uniform_neg_one_one_mem (u : ℚ) (h0 : 0 ≤ u) (h1 : u ≤ 1) :
    -1 ≤ uniform (-1) 1 u ∧ uniform (-1) 1 u ≤ 1 :=
  uniform_mem (-1) 1 u (by norm_num) h0 h1

/-- C4: `random_point_in_sphere` implements exactly the stated rejection
sampling: whenever the loop returns, there is a first accepted candidate
index `k`; every earlier candidate was rejected (its draws consumed), the
accepted candidate's three coordinates are consecutive `uniform(-1, 1)`
draws (each in [-1, 1] for a faithful stream), the returned point is that
candidate scaled by `radius`, and the cursor has advanced past the
3(k+1) consumed draws. -/
theorem rpis_rejection_sampling (radius : ℚ) (s : RandStream) (n fuel : Nat)
    (p : Vec3) (n' : Nat) (hu : UnitStream s)
    (h : rpisLoop radius s n fuel = some (p, n')) :
    ∃ k, (∀ j, j < k → ¬accepted s (n + 3 * j)) ∧ accepted s (n + 3 * k) ∧
      p = Vec3.smul radius (candidateAt s (n + 3 * k)) ∧ n' = n + 3 * k + 3 ∧
      ∀ m, candidateAt s m =
          ⟨uniform (-1) 1 (s m), uniform (-1) 1 (s (m + 1)), uniform (-1) 1 (s (m + 2))⟩ ∧
        (-1 ≤ (candidateAt s m).x ∧ (candidateAt s m).x ≤ 1) ∧
        (-1 ≤ (candidateAt s m).y ∧ (candidateAt s m).y ≤ 1) ∧
        (-1 ≤ (candidateAt s m).z ∧ (candidateAt s m).z ≤ 1) := by
  have hcand : ∀ m, candidateAt s m =
      ⟨uniform (-1) 1 (s m), uniform (-1) 1 (s (m + 1)), uniform (-1) 1 (s (m + 2))⟩ ∧
      (-1 ≤ (candidateAt s m).x ∧ (candidateAt s m).x ≤ 1) ∧
      (-1 ≤ (candidateAt s m).y ∧ (candidateAt s m).y ≤ 1) ∧
      (-1 ≤ (candidateAt s m).z ∧ (candidateAt s m).z ≤ 1) := by
    intro m
    refine ⟨rfl, ?_, ?_, ?_⟩ <;>
      exact uniform_neg_one_one_mem _ (hu _).1 (le_of_lt (hu _).2)
  clear hu
  induction fuel generalizing n with
  | zero => simp [rpisLoop] at h
  | succ f ih =>
      by_cases hacc : accepted s n
      · rw [rpisLoop, if_pos hacc] at h
        have hpair := Option.some_inj.mp h
        have hp : Vec3.smul radius (candidateAt s n) = p := congrArg Prod.fst hpair
        have hn : n + 3 = n' := congrArg Prod.snd hpair
        exact ⟨0, fun j hj => absurd hj (by omega), by simpa using hacc,
          by simpa using hp.symm, by omega, hcand⟩
      · rw [rpisLoop, if_neg hacc] at h
        obtain ⟨k, hrej, hk, hp, hn, _⟩ := ih (n + 3) h
        refine ⟨k + 1, ?_, ?_, ?_, by omega, hcand⟩
        · intro j hj
          match j with
          | 0 => simpa using hacc
          | j + 1 =>
              have := hrej j (by omega)
              have e : n + 3 + 3 * j = n + 3 * (j + 1) := by ring
              rwa [e] at this
        · have e : n + 3 + 3 * k = n + 3 * (k + 1) := by ring
          rwa [e] at hk
        · have e : n + 3 + 3 * k = n + 3 * (k + 1) := by ring
          rwa [e] at hp

theorem halfStream_candidate (n : Nat) : candidateAt halfStream n = ⟨0, 0, 0⟩ := by
  simp only [candidateAt, halfStream, uniform, Vec3.mk.injEq]
  norm_num

theorem rpisLoop_step_accepted (radius : ℚ) (s : RandStream) (n fuel : Nat)
    (h : accepted s n) :
    rpisLoop radius s n (fuel + 1) = some (Vec3.smul radius (candidateAt s n), n + 3) := by
  rw [rpisLoop, if_pos h]

theorem rpisLoop_one_half : rpisLoop 2 halfStream 0 1 = some (⟨0, 0, 0⟩, 3) := by
  have h := rpisLoop_step_accepted 2 halfStream 0 0 (halfStream_accepted 0)
  rw [halfStream_candidate] at h
  simpa [Vec3.smul] using h

theorem rpis_rejection_sampling_witness :
    (UnitStream halfStream ∧
        rpisLoop 2 halfStream 0 1 = some (⟨0, 0, 0⟩, 3)) ∧
      ∃ k, (∀ j, j < k → ¬accepted halfStream (0 + 3 * j)) ∧
        accepted halfStream (0 + 3 * k) ∧
        (⟨0, 0, 0⟩ : Vec3) = Vec3.smul 2 (candidateAt halfStream (0 + 3 * k)) ∧
        3 = 0 + 3 * k + 3 ∧
        ∀ m, candidateAt halfStream m =
            ⟨uniform (-1) 1 (halfStream m), uniform (-1) 1 (halfStream (m + 1)),
              uniform (-1) 1 (halfStream (m + 2))⟩ ∧
          (-1 ≤ (candidateAt halfStream m).x ∧ (candidateAt halfStream m).x ≤ 1) ∧
          (-1 ≤ (candidateAt halfStream m).y ∧ (candidateAt halfStream m).y ≤ 1) ∧
          (-1 ≤ (candidateAt halfStream m).z ∧ (candidateAt halfStream m).z ≤ 1) :=
  ⟨⟨halfStream_unit, rpisLoop_one_half⟩,
    rpis_rejection_sampling 2 halfStream 0 1 ⟨0, 0, 0⟩ 3 halfStream_unit rpisLoop_one_half⟩

theorem rpisLoop_find_eq (radius : ℚ) (s : RandStream) :
    ∀ j n (h : ∃ k, accepted s (n + 3 * k)), Nat.find h = j →
      rpisLoop radius s n (j + 1) =
        some (Vec3.smul radius (candidateAt s (n + 3 * j)), n + 3 * j + 3) := by
  intro j
  induction j with
  | zero =>
      intro n h hfind
      have hacc : accepted s (n + 3 * 0) := hfind ▸ Nat.find_spec h
      have hacc' : accepted s n := by simpa using hacc
      simp [rpisLoop, if_pos hacc']
  | succ j ih =>
      intro n h hfind
      have hnot : ¬accepted s n := by
        have := Nat.find_min h (show 0 < Nat.find h by omega)
        simpa using this
      have hspec : accepted s (n + 3 + 3 * j) := by
        have := hfind ▸ Nat.find_spec h
        have e : n + 3 * (j + 1) = n + 3 + 3 * j := by ring
        rwa [e] at this
      have h' : ∃ k, accepted s (n + 3 + 3 * k) := ⟨j, hspec⟩
      have hfind' : Nat.find h' = j := by
        rw [Nat.find_eq_iff]
        refine ⟨hspec, fun m hm => ?_⟩
        have := Nat.find_min h (show m + 1 < Nat.find h by omega)
        have e : n + 3 * (m + 1) = n + 3 + 3 * m := by ring
        rwa [e] at this
      have step : rpisLoop radius s n (j + 1 + 1) = rpisLoop radius s (n + 3) (j + 1) := by
        rw [rpisLoop, if_neg hnot]
      rw [step, ih (n + 3) h' hfind']
      have e : n + 3 + 3 * j = n + 3 * (j + 1) := by ring
      rw [e]

theorem rpisLoop_none_of_all_rejected (radius : ℚ) (s : RandStream) :
    ∀ fuel n, (∀ k, ¬accepted s (n + 3 * k)) → rpisLoop radius s n fuel = none := by
  intro fuel
  induction fuel with
  | zero => intro n _; rfl
  | succ f ih =>
      intro n hall
      have h0 : ¬accepted s n := by simpa using hall 0
      rw [rpisLoop, if_neg h0]
      apply ih
      intro k
      have := hall (k + 1)
      have e : n + 3 * (k + 1) = n + 3 + 3 * k := by ring
      rwa [e] at this

/-- C8: the rejection loop imposes no retry bound and has no failure path:
on every stream that eventually contains an accepted candidate it terminates
(with `Nat.find h + 1` iterations of fuel the fuelled loop already returns
the accepted point), and on a stream with no accepted candidate it returns
nothing for every fuel bound (the unbounded loop never exits). -/
theorem rejection_loop_termination (radius : ℚ) (s : RandStream) (n : Nat) :
    (∀ h : ∃ k, accepted s (n + 3 * k),
        rpisLoop radius s n (Nat.find h + 1) = some (random_point_in_sphere radius s n h)) ∧
      ∀ fuel, (∀ k, ¬accepted s (n + 3 * k)) → rpisLoop radius s n fuel = none := by
  constructor
  · intro h
    exact rpisLoop_find_eq radius s (Nat.find h) n h rfl
  · intro fuel hall
    exact rpisLoop_none_of_all_rejected radius s fuel n hall

theorem rejection_loop_termination_witness :
    (∃ k, accepted halfStream (0 + 3 * k)) ∧
      ∀ h : ∃ k, accepted halfStream (0 + 3 * k),
        rpisLoop 2 halfStream 0 (Nat.find h + 1) =
          some (random_point_in_sphere 2 halfStream 0 h) :=
  ⟨⟨0, halfStream_accepted _⟩, fun h => (rejection_loop_termination 2 halfStream 0).1 h⟩

theorem buildLoop_congr (radius smin smax : ℚ) (sa sb : RandStream) (hab : sa = sb)
    (ha : GoodStream sa) (hb : GoodStream sb) (count n : Nat) :
    buildLoop radius smin smax sa ha count n = buildLoop radius smin smax sb hb count n := by
  subst hab
  rw [Subsingleton.elim ha hb]

/-- C2: two runs of the build with identical seed, count, radius and size
range (the other settings fields are free to differ) yield the same
position sequence and the same scale sequence, element by element: the
placements are a function of exactly these fields, the stream being seeded
once from `random_seed` at the start of each build. -/
theorem build_field_deterministic (s₁ s₂ : StarfieldSettings) (rngOf : ℤ → RandStream)
    (h₁ : GoodStream (rngOf s₁.random_seed)) (h₂ : GoodStream (rngOf s₂.random_seed))
    (hseed : s₁.random_seed = s₂.random_seed) (hcount : s₁.star_count = s₂.star_count)
    (hrad : s₁.field_radius = s₂.field_radius)
    (hmin : s₁.star_size_min = s₂.star_size_min)
    (hmax : s₁.star_size_max = s₂.star_size_max) :
    (build_field s₁ rngOf h₁).map StarPlacement.position =
        (build_field s₂ rngOf h₂).map StarPlacement.position ∧
      (build_field s₁ rngOf h₁).map StarPlacement.scale =
        (build_field s₂ rngOf h₂).map StarPlacement.scale := by
  have heq : build_field s₁ rngOf h₁ = build_field s₂ rngOf h₂ := by
    unfold build_field
    rw [hcount, hrad, hmin, hmax]
    exact buildLoop_congr _ _ _ _ _ (by rw [hseed]) h₁ h₂ _ _
  rw [heq]
  exact ⟨rfl, rfl⟩

theorem build_field_deterministic_witness :
    (sampleSettings.random_seed = settingsAlt.random_seed ∧
        sampleSettings.star_count = settingsAlt.star_count ∧
        sampleSettings.field_radius = settingsAlt.field_radius ∧
        sampleSettings.star_size_min = settingsAlt.star_size_min ∧
        sampleSettings.star_size_max = settingsAlt.star_size_max) ∧
      (build_field sampleSettings halfRng halfStream_good).map StarPlacement.position =
          (build_field settingsAlt halfRng halfStream_good).map StarPlacement.position ∧
        (build_field sampleSettings halfRng halfStream_good).map StarPlacement.scale =
          (build_field settingsAlt halfRng halfStream_good).map StarPlacement.scale :=
  ⟨⟨rfl, rfl, rfl, rfl, rfl⟩,
    build_field_deterministic sampleSettings settingsAlt halfRng halfStream_good
      halfStream_good rfl rfl rfl rfl rfl⟩

theorem buildLoop_get_eq (radius smin smax : ℚ) (s : RandStream) (hs : GoodStream s) :
    ∀ count n i, i < count →
      ∀ hlen : i < (buildLoop radius smin smax s hs count n).length,
        (buildLoop radius smin smax s hs count n).get ⟨i, hlen⟩ =
          { position :=
              (random_point_in_sphere radius s (cursorAt s hs n i) (hs (cursorAt s hs n i))).1,
            scale := uniform smin smax
              (s ((random_point_in_sphere radius s (cursorAt s hs n i)
                (hs (cursorAt s hs n i))).2)) } := by
  intro count
  induction count with
  | zero => intro n i hi _; exact absurd hi (by omega)
  | succ c ih =>
      intro n i hi hlen
      cases i with
      | zero => rfl
      | succ i =>
          exact ih ((random_point_in_sphere radius s n (hs n)).2 + 1) i (by omega)
            (by rw [buildLoop_length]; omega)

/-- C7: in iteration `i` of the build loop the draws happen in a fixed
order, position before scale: the star's position is the result of
`random_point_in_sphere` run at the iteration's start cursor, consuming the
draws at indices `[cursorAt i, end_i)` where `end_i` is the returned
cursor, and the star's scale then consumes the single draw at index `end_i`,
which lies strictly after the iteration's start (and after every index the
position consumed). -/
theorem position_before_scale (radius smin smax : ℚ) (s : RandStream) (hs : GoodStream s)
    (count n i : Nat) (hi : i < count) :
    ∃ hlen : i < (buildLoop radius smin smax s hs count n).length,
      ((buildLoop radius smin smax s hs count n).get ⟨i, hlen⟩).position =
          (random_point_in_sphere radius s (cursorAt s hs n i) (hs (cursorAt s hs n i))).1 ∧
        ((buildLoop radius smin smax s hs count n).get ⟨i, hlen⟩).scale =
          uniform smin smax
            (s ((random_point_in_sphere radius s (cursorAt s hs n i)
              (hs (cursorAt s hs n i))).2)) ∧
        cursorAt s hs n i <
          (random_point_in_sphere radius s (cursorAt s hs n i) (hs (cursorAt s hs n i))).2 := by
  have hlen : i < (buildLoop radius smin smax s hs count n).length := by
    rw [buildLoop_length]
    exact hi
  have hget := buildLoop_get_eq radius smin smax s hs count n i hi hlen
  refine ⟨hlen, ?_, ?_, ?_⟩
  · rw [hget]
  · rw [hget]
  · show cursorAt s hs n i <
      cursorAt s hs n i + 3 * Nat.find (hs (cursorAt s hs n i)) + 3
    omega

theorem position_before_scale_witness :
    (0 : Nat) < 1 ∧
      ∃ hlen : 0 < (buildLoop 2 0 1 halfStream halfStream_good 1 0).length,
        ((buildLoop 2 0 1 halfStream halfStream_good 1 0).get ⟨0, hlen⟩).position =
            (random_point_in_sphere 2 halfStream (cursorAt halfStream halfStream_good 0 0)
              (halfStream_good (cursorAt halfStream halfStream_good 0 0))).1 ∧
          ((buildLoop 2 0 1 halfStream halfStream_good 1 0).get ⟨0, hlen⟩).scale =
            uniform 0 1
              (halfStream ((random_point_in_sphere 2 halfStream
                (cursorAt halfStream halfStream_good 0 0)
                (halfStream_good (cursorAt halfStream halfStream_good 0 0))).2)) ∧
          cursorAt halfStream halfStream_good 0 0 <
            (random_point_in_sphere 2 halfStream (cursorAt halfStream halfStream_good 0 0)
              (halfStream_good (cursorAt halfStream halfStream_good 0 0))).2 :=
  ⟨by omega, position_before_scale 2 0 1 halfStream halfStream_good 1 0 0 (by omega)⟩

theorem clear_collection_eq_nil : ∀ objs, clear_collection objs = [] := by
  intro objs
  induction objs with
  | nil => rfl
  | cons a rest ih => exact ih

theorem starObjects_length :
    ∀ placements firstIndex, (starObjects placements firstIndex).length = placements.length := by
  intro placements
  induction placements with
  | nil => intro firstIndex; rfl
  | cons p rest ih => intro firstIndex; simp [starObjects, ih]

theorem starObjects_all_stars :
    ∀ placements firstIndex o, o ∈ starObjects placements firstIndex →
      ∃ idx pos sc, o = SceneObject.star idx pos sc := by
  intro placements
  induction placements with
  | nil => intro firstIndex o ho; simp [starObjects] at ho
  | cons p rest ih =>
      intro firstIndex o ho
      simp only [starObjects, List.mem_cons] at ho
      rcases ho with rfl | ho
      · exact ⟨firstIndex, p.position, p.scale, rfl⟩
      · exact ih (firstIndex + 1) o ho

/-- C10: with `clear_existing` true, every object already in the target
collection is removed before any star is created, so afterwards the
collection holds exactly `star_count` newly created star objects; with
`clear_existing` false, the pre-existing objects are untouched and the new
stars are linked alongside them. -/
theorem clear_existing_frame (settings : StarfieldSettings) (pre : List SceneObject)
    (rngOf : ℤ → RandStream) (hs : GoodStream (rngOf settings.random_seed)) :
    (settings.clear_existing = true →
        generate_starfield settings pre rngOf hs =
          starObjects (build_field settings rngOf hs) 0 ∧
        (0 ≤ settings.star_count →
          ((generate_starfield settings pre rngOf hs).length : ℤ) = settings.star_count) ∧
        ∀ o ∈ generate_starfield settings pre rngOf hs,
          ∃ idx pos sc, o = SceneObject.star idx pos sc) ∧
      (settings.clear_existing = false →
        generate_starfield settings pre rngOf hs =
          pre ++ starObjects (build_field settings rngOf hs) 0) := by
  constructor
  · intro hclear
    have heq : generate_starfield settings pre rngOf hs =
        starObjects (build_field settings rngOf hs) 0 := by
      simp [generate_starfield, hclear, clear_collection_eq_nil]
    refine ⟨heq, ?_, ?_⟩
    · intro h0
      rw [heq, starObjects_length]
      simp [build_field, buildLoop_length, Int.toNat_of_nonneg h0]
    · intro o ho
      rw [heq] at ho
      exact starObjects_all_stars _ 0 o ho
  · intro hclear
    simp [generate_starfield, hclear]

theorem clear_existing_frame_witness :
    (sampleSettings.clear_existing = true →
        generate_starfield sampleSettings [SceneObject.existing 7] halfRng halfStream_good =
          starObjects (build_field sampleSettings halfRng halfStream_good) 0 ∧
        (0 ≤ sampleSettings.star_count →
          ((generate_starfield sampleSettings [SceneObject.existing 7] halfRng
              halfStream_good).length : ℤ) = sampleSettings.star_count) ∧
        ∀ o ∈ generate_starfield sampleSettings [SceneObject.existing 7] halfRng halfStream_good,
          ∃ idx pos sc, o = SceneObject.star idx pos sc) ∧
      (sampleSettings.clear_existing = false →
        generate_starfield sampleSettings [SceneObject.existing 7] halfRng halfStream_good =
          [SceneObject.existing 7] ++
            starObjects (build_field sampleSettings halfRng halfStream_good) 0) :=
  clear_existing_frame sampleSettings [SceneObject.existing 7] halfRng halfStream_good

end Starfield
